import Mathlib

/-!
# Verification of the bruker-jcamp-rs ParaVision/JCAMP-DX parameter parser

Shallow embedding of `src/lib.rs` (crate `bruker-jcamp-rs`).  Rust strings are
modelled as `List Char`; the `BufRead` line stream is modelled as a
`List (List Char)` of lines (the segments produced by `read_line`, without the
final newline; a possible carriage return is stripped by `trim_end_crlf`, just
as the source strips both `\r` and `\n`).  `HashMap` is modelled as an
association list with overwriting insertion.  Machine integers are `Nat`/`Int`
with explicit range checks where the source checks them (`i64`/`usize`
parsing); `f64` values are modelled by `F64` below, with finite values carried
as exact rationals (IEEE rounding of decimal literals is abstracted away; no
claim below depends on the rounded value of a parsed float).
-/

/-- Rust `&str` contents, modelled as a list of characters. -/
abbrev Chars := List Char

/-- Rust `char::is_whitespace` (the Unicode `White_Space` property). -/
def isRustWS (c : Char) : Bool :=
  let n := c.toNat
  (9 ≤ n && n ≤ 13) || n == 32 || n == 0x85 || n == 0xA0 || n == 0x1680 ||
  (0x2000 ≤ n && n ≤ 0x200A) || n == 0x2028 || n == 0x2029 || n == 0x202F ||
  n == 0x205F || n == 0x3000

/-- Rust `char::to_ascii_lowercase`. -/
def toAsciiLower (c : Char) : Char :=
  if 'A' ≤ c ∧ c ≤ 'Z' then Char.ofNat (c.toNat + 32) else c

/-- Rust `char::to_ascii_uppercase`. -/
def toAsciiUpper (c : Char) : Char :=
  if 'a' ≤ c ∧ c ≤ 'z' then Char.ofNat (c.toNat - 32) else c

/-- Rust `str::to_ascii_lowercase`. -/
def lowerAscii (s : Chars) : Chars := s.map toAsciiLower

/-- Rust `str::trim_end_matches(&['\r', '\n'][..])`. -/
def trim_end_crlf (s : Chars) : Chars :=
  (s.reverse.dropWhile (fun c => c == '\r' || c == '\n')).reverse

/-- Trailing-whitespace trimming (the right half of Rust `str::trim`),
written structurally so that it reduces in the kernel. -/
def trimRightC : Chars → Chars
  | [] => []
  | c :: cs =>
    match trimRightC cs with
    | [] => if isRustWS c then [] else [c]
    | d :: ds => c :: d :: ds

/-- Rust `str::trim`: drop leading and trailing Unicode whitespace. -/
def trimC (s : Chars) : Chars := trimRightC (s.dropWhile isRustWS)

/-- Rust `str::starts_with` for a literal pattern. -/
def startsWithChars : Chars → Chars → Bool
  | [], _ => true
  | _ :: _, [] => false
  | p :: ps, c :: cs => p == c && startsWithChars ps cs

/-- Accumulator-passing worker for `splitWS` (structural recursion). -/
def splitWSAux : Chars → Chars → List Chars
  | [], acc => if acc = [] then [] else [acc.reverse]
  | c :: cs, acc =>
    if isRustWS c then
      (if acc = [] then [] else [acc.reverse]) ++ splitWSAux cs []
    else
      splitWSAux cs (c :: acc)

/-- Rust `str::split_whitespace`: maximal runs of non-whitespace characters. -/
def splitWS (s : Chars) : List Chars := splitWSAux s []

/-- Split at the first `=`, returning the pieces before and after it
(`str::split_once('=')`). -/
def splitOnceEq : Chars → Option (Chars × Chars)
  | [] => none
  | c :: cs =>
    if c = '=' then some ([], cs)
    else match splitOnceEq cs with
      | some p => some (c :: p.1, p.2)
      | none => none

/-- `fn split_key_value(s: &str) -> (&str, &str)`: split at the first `=`;
when there is no `=` the whole line is the key and the value is empty. -/
def split_key_value (s : Chars) : Chars × Chars :=
  match splitOnceEq s with
  | some p => p
  | none => (s, [])

/-- `fn normalize_key(k: &str) -> String`: trim, then ASCII-uppercase. -/
def normalize_key (k : Chars) : Chars := (trimC k).map toAsciiUpper

/-- Rust `str::split(',')`: the empty string yields one empty piece. -/
def splitOnComma : Chars → List Chars
  | [] => [[]]
  | c :: cs =>
    if c = ',' then [] :: splitOnComma cs
    else
      match splitOnComma cs with
      | [] => [[c]]
      | p :: ps => (c :: p) :: ps

/-- ASCII decimal digit test. -/
def isDigitChar (c : Char) : Bool := '0' ≤ c && c ≤ '9'

/-- Value of a digit string (most significant digit first). -/
def digitsToNat (s : Chars) : Nat :=
  s.foldl (fun n c => n * 10 + (c.toNat - 48)) 0

/-- Shared digit recognizer for the integer parsers: a nonempty string of
ASCII digits, whose value is returned unbounded (range checks are done by
the callers, mirroring the overflow checks of Rust `from_str`). -/
def parseDigits (s : Chars) : Option Nat :=
  if s ≠ [] ∧ s.all isDigitChar then some (digitsToNat s) else none

/-- Rust `str::parse::<usize>()` on a 64-bit platform: optional `+` sign,
nonempty digits, value below `2^64` (overflow is a parse error). -/
def parse_u64 (s : Chars) : Option Nat :=
  let body := match s with
    | '+' :: rest => rest
    | _ => s
  match parseDigits body with
  | some n => if n < 2 ^ 64 then some n else none
  | none => none

/-- Rust `str::parse::<i64>()`: optional sign, nonempty digits, value within
`[-2^63, 2^63 - 1]` (overflow is a parse error). -/
def parse_i64 (s : Chars) : Option Int :=
  match s with
  | '-' :: rest =>
    match parseDigits rest with
    | some n => if n ≤ 2 ^ 63 then some (-(n : Int)) else none
    | none => none
  | '+' :: rest =>
    match parseDigits rest with
    | some n => if n ≤ 2 ^ 63 - 1 then some (n : Int) else none
    | none => none
  | _ =>
    match parseDigits s with
    | some n => if n ≤ 2 ^ 63 - 1 then some (n : Int) else none
    | none => none

/-- Model of an `f64` value: finite values are carried as exact rationals
(IEEE rounding abstracted), plus the two infinities and NaN. -/
inductive F64 where
  | finite (q : ℚ) : F64
  | inf : F64
  | negInf : F64
  | nan : F64
deriving DecidableEq

/-- IEEE negation on the `F64` model (`-NaN` is identified with NaN). -/
def F64.neg : F64 → F64
  | .finite q => .finite (-q)
  | .inf => .negInf
  | .negInf => .inf
  | .nan => .nan

/-- `10^e` as a rational, for a signed decimal exponent. -/
def pow10Q (e : Int) : ℚ :=
  if 0 ≤ e then ((10 ^ e.toNat : ℕ) : ℚ) else 1 / ((10 ^ (-e).toNat : ℕ) : ℚ)

/-- Exponent part of the Rust `f64` grammar: optional sign, nonempty digits. -/
def parseExp (s : Chars) : Option Int :=
  match s with
  | '-' :: rest => (parseDigits rest).map (fun n => -(n : Int))
  | '+' :: rest => (parseDigits rest).map (fun n => (n : Int))
  | _ => (parseDigits s).map (fun n => (n : Int))

/-- Exact value of a decimal literal `int.frac * 10^e`. -/
def decValue (intPart frac : Chars) (e : Int) : F64 :=
  .finite (((digitsToNat intPart : ℚ) +
      (digitsToNat frac : ℚ) / ((10 ^ frac.length : ℕ) : ℚ)) * pow10Q e)

/-- The `Number` production of the Rust `f64::from_str` grammar:
`Digit+ | Digit+ '.' Digit* | Digit* '.' Digit+`, then an optional
`e`/`E` exponent. -/
def parseDecNumber (s : Chars) : Option F64 :=
  let intPart := s.takeWhile isDigitChar
  let rest := s.dropWhile isDigitChar
  match rest with
  | [] => if intPart = [] then none else some (decValue intPart [] 0)
  | '.' :: rest2 =>
    let frac := rest2.takeWhile isDigitChar
    let rest3 := rest2.dropWhile isDigitChar
    if intPart = [] ∧ frac = [] then none
    else
      match rest3 with
      | [] => some (decValue intPart frac 0)
      | e :: rest4 =>
        if e = 'e' ∨ e = 'E' then (parseExp rest4).map (decValue intPart frac)
        else none
  | e :: rest2 =>
    if (e = 'e' ∨ e = 'E') ∧ intPart ≠ [] then
      (parseExp rest2).map (decValue intPart [])
    else none

/-- Unsigned part of Rust `f64::from_str`: `inf`, `infinity` and `nan` are
matched case-insensitively, otherwise a decimal number. -/
def parse_f64_unsigned (s : Chars) : Option F64 :=
  let ls := lowerAscii s
  if ls = ['i', 'n', 'f'] ∨ ls = ['i', 'n', 'f', 'i', 'n', 'i', 't', 'y'] then
    some .inf
  else if ls = ['n', 'a', 'n'] then some .nan
  else parseDecNumber s

/-- Rust `str::parse::<f64>()`: optional sign, then `inf`/`infinity`/`nan`
or a decimal number.  Only success/failure and the sign structure matter to
the claims below; finite values are exact rationals. -/
def parse_f64 (s : Chars) : Option F64 :=
  match s with
  | '-' :: rest => (parse_f64_unsigned rest).map F64.neg
  | '+' :: rest => parse_f64_unsigned rest
  | _ => parse_f64_unsigned s

/-- Rust `str::parse::<bool>()`: exactly `true` or `false`, case-sensitive. -/
def parse_bool (s : Chars) : Option Bool :=
  if s = ['t', 'r', 'u', 'e'] then some true
  else if s = ['f', 'a', 'l', 's', 'e'] then some false
  else none

/-- `enum PvAtom { Bool, Int, Float, Text }`. -/
inductive PvAtom where
  | Bool (b : Bool) : PvAtom
  | Int (i : ℤ) : PvAtom
  | Float (f : F64) : PvAtom
  | Text (s : Chars) : PvAtom
deriving DecidableEq

/-- `fn parse_atom(tok: &str) -> PvAtom`: trim, lowercase; `yes`/`true` and
`no`/`false` first, then `i64`, then `f64`, then the trimmed text itself. -/
def parse_atom (tok : Chars) : PvAtom :=
  let t := trimC tok
  let tl := lowerAscii t
  if tl = ['y', 'e', 's'] ∨ tl = ['t', 'r', 'u', 'e'] then PvAtom.Bool true
  else if tl = ['n', 'o'] ∨ tl = ['f', 'a', 'l', 's', 'e'] then PvAtom.Bool false
  else
    match parse_i64 t with
    | some i => PvAtom.Int i
    | none =>
      match parse_f64 t with
      | some f => PvAtom.Float f
      | none => PvAtom.Text t

/-- `fn push_atoms_from_line(line: &str, out: &mut Vec<PvAtom>)`: append one
atom per whitespace-separated token of the line. -/
def push_atoms_from_line (line : Chars) (out : List PvAtom) : List PvAtom :=
  out ++ (splitWS line).map parse_atom

/-- Sequencing of `parse::<usize>` over the dim tokens
(the `collect::<Result<_, _>>().ok()?` of `parse_dims`). -/
def collectDims : List Chars → Option (List Nat)
  | [] => some []
  | t :: ts =>
    match parse_u64 t, collectDims ts with
    | some n, some ns => some (n :: ns)
    | _, _ => none

/-- `fn parse_dims(v: &str) -> Option<Vec<usize>>`: a parenthesized,
comma-separated list of `usize`; empty pieces are dropped before parsing and
an empty dims list is rejected. -/
def parse_dims (v0 : Chars) : Option (List Nat) :=
  let v := trimC v0
  match v with
  | '(' :: rest =>
    match rest.getLast? with
    | some ')' =>
      let inner := rest.dropLast
      let parts := ((splitOnComma inner).map trimC).filter (· ≠ [])
      match collectDims parts with
      | some dims => if dims = [] then none else some dims
      | none => none
    | _ => none
  | _ => none

/-- `fn parse_angle_brackets(s: &str) -> Option<String>`: after trimming,
the line must start with `<` and end with `>`; the inner slice is returned. -/
def parse_angle_brackets (s0 : Chars) : Option Chars :=
  let s := trimC s0
  match s with
  | '<' :: rest =>
    match rest.getLast? with
    | some '>' => some rest.dropLast
    | _ => none
  | _ => none

/-- `enum PvValue { Scalar, Array { dims, items }, Str }`. -/
inductive PvValue where
  | Scalar (a : PvAtom) : PvValue
  | Array (dims : List Nat) (items : List PvAtom) : PvValue
  | Str (s : Chars) : PvValue
deriving DecidableEq

/-- `struct PvParams { meta, params }`; the two `HashMap`s are modelled as
association lists with overwriting insertion (`insertKV`). -/
structure PvParams where
  meta : List (Chars × Chars)
  params : List (Chars × PvValue)
deriving DecidableEq

/-- `enum Pending { Dims { key, dims }, Array { key, dims, need, items } }` —
the continuation state carried between lines. -/
inductive Pending where
  | Dims (key : Chars) (dims : List Nat) : Pending
  | Array (key : Chars) (dims : List Nat) (need : Nat) (items : List PvAtom) : Pending
deriving DecidableEq

/-- `enum PvError { Io(io::Error), Parse(String) }`.  The `Parse` message in
the source is `format!("Unexpected EOF while parsing pending record: {p:?}")`
— a pure function of the pending record `p`, which names its key and declared
dims; we carry the record itself instead of its `Debug` rendering. -/
inductive PvError where
  | IoError : PvError
  | Parse (p : Pending) : PvError
deriving DecidableEq

instance {ε α : Type} [DecidableEq ε] [DecidableEq α] : DecidableEq (Except ε α) :=
  fun x y =>
    match x, y with
    | .ok a, .ok b =>
      if h : a = b then isTrue (by rw [h]) else isFalse (fun hh => by cases hh; exact h rfl)
    | .ok _, .error _ => isFalse (fun hh => by cases hh)
    | .error _, .ok _ => isFalse (fun hh => by cases hh)
    | .error a, .error b =>
      if h : a = b then isTrue (by rw [h]) else isFalse (fun hh => by cases hh; exact h rfl)

/-- `HashMap::insert`: replace the binding of `k` if present, else add it
(last write wins; insertion never fails). -/
def insertKV {α : Type} (k : Chars) (v : α) : List (Chars × α) → List (Chars × α)
  | [] => [(k, v)]
  | (k', v') :: rest =>
    if k' = k then (k, v) :: rest else (k', v') :: insertKV k v rest

/-- The trimmed content of one input line: `trim_end_matches(&['\r','\n'])`
followed by `trim`, as in the driver loop. -/
def line_content (l : Chars) : Chars := trimC (trim_end_crlf l)

/-- The pending-continuation half of the driver loop: lines 178-209 of the
source.  In the `Dims` state the line decides string vs array; in the `Array`
state the line extends the items; in both array cases the record completes as
soon as `need` items are available, truncating any excess. -/
def handle_pending (out : PvParams) (p : Pending) (s : Chars) :
    PvParams × Option Pending :=
  match p with
  | .Dims key dims =>
    match parse_angle_brackets s with
    | some txt =>
      ({ out with params := insertKV key (PvValue.Str txt) out.params }, none)
    | none =>
      let need := dims.prod
      let items := push_atoms_from_line s []
      if need ≤ items.length then
        ({ out with
            params := insertKV key (PvValue.Array dims (items.take need)) out.params },
          none)
      else (out, some (.Array key dims need items))
  | .Array key dims need items =>
    let items2 := push_atoms_from_line s items
    if need ≤ items2.length then
      ({ out with
          params := insertKV key (PvValue.Array dims (items2.take need)) out.params },
        none)
    else (out, some (.Array key dims need items2))

/-- The record-classification half of the driver loop: lines 212-243 of the
source.  `##KEY=V` is a meta record (key normalized, value trimmed);
`##$KEY=V` is a parameter record, a dims header when `parse_dims` succeeds
and a scalar otherwise; any other line is ignored. -/
def handle_record (out : PvParams) (s : Chars) : PvParams × Option Pending :=
  if startsWithChars ['#', '#'] s then
    let rest := s.drop 2
    if startsWithChars ['$'] rest then
      let rest2 := rest.drop 1
      let kv := split_key_value rest2
      let key := trimC kv.1
      let v := trimC kv.2
      match parse_dims v with
      | some dims => (out, some (.Dims key dims))
      | none =>
        ({ out with params := insertKV key (PvValue.Scalar (parse_atom v)) out.params },
          none)
    else
      let kv := split_key_value rest
      ({ out with meta := insertKV (normalize_key kv.1) (trimC kv.2) out.meta }, none)
  else (out, none)

/-- One iteration of the `while read_line` loop: trim the line, skip blanks
and `$$` comments (keeping any pending state), otherwise dispatch to the
pending handler or the record classifier. -/
def step (st : PvParams × Option Pending) (l : Chars) : PvParams × Option Pending :=
  let s := line_content l
  if s.isEmpty || startsWithChars ['$', '$'] s then st
  else
    match st.2 with
    | some p => handle_pending st.1 p s
    | none => handle_record st.1 s

/-- The driver's starting state: empty store, no pending record. -/
def initState : PvParams × Option Pending := (⟨[], []⟩, none)

/-- `pub fn parse_paravision_params<R: BufRead>(reader: R)`: run the loop
over all lines; end of stream with a pending record is the incomplete-record
error, otherwise the accumulated store is returned. -/
def parse_paravision_params (lines : List Chars) : Except PvError PvParams :=
  match List.foldl step initState lines with
  | (out, none) => Except.ok out
  | (_, some p) => Except.error (PvError.Parse p)

/-- IEEE absolute value on the `F64` model (`f64::abs`; `|NaN|` is NaN). -/
def F64.abs : F64 → F64
  | .finite q => .finite |q|
  | .inf => .inf
  | .negInf => .inf
  | .nan => .nan

/-- The IEEE comparison `f > 0.0` on the `F64` model (false for NaN). -/
def F64.gtZero : F64 → Bool
  | .finite q => decide (0 < q)
  | .inf => true
  | .negInf => false
  | .nan => false

/-- Truncation toward zero of a rational (the rounding mode of Rust's
float-to-integer `as` casts). -/
def ratTruncInt (q : ℚ) : Int := if 0 ≤ q then q.floor else -((-q).floor)

/-- Rust `f as usize` (a saturating cast on a 64-bit platform): NaN goes to
0, the result is clamped to `[0, 2^64 - 1]`, finite values truncate toward
zero. -/
def F64.toUsizeCast : F64 → Nat
  | .nan => 0
  | .inf => 2 ^ 64 - 1
  | .negInf => 0
  | .finite q => min (ratTruncInt q).toNat (2 ^ 64 - 1)

/-- Rust `f as i64` (saturating): NaN goes to 0, the result is clamped to
`[-2^63, 2^63 - 1]`. -/
def F64.toI64Cast : F64 → Int
  | .nan => 0
  | .inf => 2 ^ 63 - 1
  | .negInf => -(2 ^ 63)
  | .finite q => max (-(2 ^ 63)) (min (ratTruncInt q) (2 ^ 63 - 1))

/-- Rust `i64::abs` with the debug-profile overflow check: negating
`i64::MIN` overflows, which panics ("attempt to negate with overflow"); in
a release build it would instead wrap back to `i64::MIN`, making
`i.abs() > 0` false there.  Either way `i64::MIN` escapes the "absolute
value is positive" reading. -/
def i64_abs_checked (i : Int) : Option Int :=
  if i = -(2 ^ 63) then none else some i.natAbs

/-- `impl From<PvAtom> for f64`.  Panics (`expect`) are modelled as
`Except.error` carrying the panic message.  `i as f64` is modelled exactly
(its IEEE rounding for `|i| > 2^53` is abstracted; no claim depends on it). -/
def f64_from_pvatom : PvAtom → Except Chars F64
  | .Bool true => .ok (.finite 1)
  | .Bool false => .ok (.finite 0)
  | .Int i => .ok (.finite (i : ℚ))
  | .Float f => .ok f
  | .Text s =>
    match parse_f64 s with
    | some f => .ok f
    | none => .error ("cannot parse string as float").toList

/-- `impl From<PvAtom> for usize`: `i as usize` is the wrapping cast. -/
def usize_from_pvatom : PvAtom → Except Chars Nat
  | .Bool b => .ok (if b then 1 else 0)
  | .Int i => .ok (i % (2 ^ 64 : Int)).toNat
  | .Float f => .ok f.toUsizeCast
  | .Text s =>
    match parse_u64 s with
    | some n => .ok n
    | none => .error ("cannot parse string as usize").toList

/-- `impl From<PvAtom> for i64` (the panic message for `Text` is the
source's own copy-pasted "usize" message). -/
def i64_from_pvatom : PvAtom → Except Chars Int
  | .Bool b => .ok (if b then 1 else 0)
  | .Int i => .ok i
  | .Float f => .ok f.toI64Cast
  | .Text s =>
    match parse_i64 s with
    | some n => .ok n
    | none => .error ("cannot parse string as usize").toList

/-- `impl From<PvAtom> for bool`: `Int` uses `i.abs() > 0` (overflow-checked
`abs`), `Float` uses `f.abs() > 0.`, `Text` uses `str::parse::<bool>`. -/
def bool_from_pvatom : PvAtom → Except Chars Bool
  | .Bool b => .ok b
  | .Int i =>
    match i64_abs_checked i with
    | some a => .ok (decide (0 < a))
    | none => .error ("attempt to negate with overflow").toList
  | .Float f => .ok (F64.abs f).gtZero
  | .Text s =>
    match parse_bool s with
    | some b => .ok b
    | none => .error ("cannot parse string as bool").toList

/-- `items.iter().map(|i| i.into()).collect()`: convert each item in order,
propagating the first panic. -/
def convList {β : Type} (f : PvAtom → Except Chars β) :
    List PvAtom → Except Chars (List β)
  | [] => .ok []
  | a :: rest =>
    match f a, convList f rest with
    | .ok b, .ok bs => .ok (b :: bs)
    | .error e, _ => .error e
    | .ok _, .error e => .error e

/-- `PvValue::to_usize`. -/
def PvValue.to_usize : PvValue → Except Chars (Option Nat)
  | .Scalar a =>
    match usize_from_pvatom a with
    | .ok n => .ok (some n)
    | .error e => .error e
  | .Array _ _ => .ok none
  | .Str _ => .ok none

/-- `PvValue::to_vec_usize`. -/
def PvValue.to_vec_usize : PvValue → Except Chars (Option (List Nat))
  | .Scalar a =>
    match usize_from_pvatom a with
    | .ok n => .ok (some [n])
    | .error e => .error e
  | .Array _ items =>
    match convList usize_from_pvatom items with
    | .ok ns => .ok (some ns)
    | .error e => .error e
  | .Str _ => .ok none

/-- `PvValue::to_vec_f64`. -/
def PvValue.to_vec_f64 : PvValue → Except Chars (Option (List F64))
  | .Scalar a =>
    match f64_from_pvatom a with
    | .ok n => .ok (some [n])
    | .error e => .error e
  | .Array _ items =>
    match convList f64_from_pvatom items with
    | .ok ns => .ok (some ns)
    | .error e => .error e
  | .Str _ => .ok none

/-- `PvValue::to_vec_bool`. -/
def PvValue.to_vec_bool : PvValue → Except Chars (Option (List Bool))
  | .Scalar a =>
    match bool_from_pvatom a with
    | .ok n => .ok (some [n])
    | .error e => .error e
  | .Array _ items =>
    match convList bool_from_pvatom items with
    | .ok ns => .ok (some ns)
    | .error e => .error e
  | .Str _ => .ok none

/-- `PvValue::to_vec_i64`. -/
def PvValue.to_vec_i64 : PvValue → Except Chars (Option (List Int))
  | .Scalar a =>
    match i64_from_pvatom a with
    | .ok n => .ok (some [n])
    | .error e => .error e
  | .Array _ items =>
    match convList i64_from_pvatom items with
    | .ok ns => .ok (some ns)
    | .error e => .error e
  | .Str _ => .ok none

/-- Reading of "the absolute value of `f` is greater than zero" on IEEE
values, used to state claim C7: false for NaN (NaN comparisons are false),
true for both infinities. -/
def f64_abs_pos : F64 → Prop
  | .finite q => 0 < |q|
  | .inf => True
  | .negInf => True
  | .nan => False

theorem trimRightC_cons_unfold (a : Char) (x : Chars) :
    trimRightC (a :: x) =
      match trimRightC x with
      | [] => if isRustWS a then [] else [a]
      | d :: ds => a :: d :: ds := rfl

theorem trimRightC_of_last_not_ws :
    ∀ (l : Chars) (c : Char), l.getLast? = some c → isRustWS c = false → trimRightC l = l := by
  intro l
  induction l with
  | nil => intro c h hw; simp at h
  | cons a as ih =>
    intro c h hw
    cases as with
    | nil =>
      simp at h
      subst h
      simp [trimRightC, hw]
    | cons b bs =>
      have h' : (b :: bs).getLast? = some c := by rwa [List.getLast?_cons_cons] at h
      have hr := ih c h' hw
      rw [trimRightC_cons_unfold, hr]

theorem trimC_angle (t : Chars) : trimC ('<' :: (t ++ ['>'])) = '<' :: (t ++ ['>']) := by
  unfold trimC
  rw [List.dropWhile_cons_of_neg (by decide)]
  have hlast : ('<' :: (t ++ ['>'])).getLast? = some '>' := by
    have hshape : ('<' :: (t ++ ['>'])) = ('<' :: t) ++ ['>'] := by simp
    rw [hshape, List.getLast?_concat]
  exact trimRightC_of_last_not_ws _ '>' hlast (by decide)

theorem parse_angle_brackets_wrap (t : Chars) :
    parse_angle_brackets ('<' :: (t ++ ['>'])) = some t := by
  unfold parse_angle_brackets
  simp [trimC_angle, List.getLast?_concat, List.dropLast_concat]

theorem step_content (st : PvParams × Option Pending) (l : Chars)
    (h1 : line_content l ≠ []) (h2 : startsWithChars ['$', '$'] (line_content l) = false) :
    step st l =
      match st.2 with
      | some p => handle_pending st.1 p (line_content l)
      | none => handle_record st.1 (line_content l) := by
  have he : (line_content l).isEmpty = false := by
    cases hc : line_content l with
    | nil => exact absurd hc h1
    | cons c cs => rfl
  simp only [step, he, h2]
  simp [h1]

/-- Claim C5: for a dims header whose immediately following content line is
wrapped in a single pair of angle brackets, the parser stores `Str` of the
inner text under the header key, consumes exactly that one continuation line,
and the state machine returns to Idle (pending becomes `none`). -/
theorem c5_angle_string (out : PvParams) (key : Chars) (dims : List Nat)
    (l t : Chars) (h : line_content l = '<' :: (t ++ ['>'])) :
    step (out, some (Pending.Dims key dims)) l =
      (⟨out.meta, insertKV key (PvValue.Str t) out.params⟩, none) := by
  simp [step, h, handle_pending, parse_angle_brackets_wrap, startsWithChars]

theorem c5_witness :
    step (⟨[], []⟩, some (Pending.Dims ['S'] [3])) "<abc>".toList =
      (⟨[], [(['S'], PvValue.Str ['a', 'b', 'c'])]⟩, none) :=
  c5_angle_string ⟨[], []⟩ ['S'] [3] "<abc>".toList ['a', 'b', 'c'] (by decide)

/-- Claim C8: on a `Str` value every typed sequence accessor (`to_usize`,
`to_vec_usize`, `to_vec_f64`, `to_vec_bool`, `to_vec_i64`) reports absence
(`Except.ok none`): it never converts the text, never panics, and never
returns a sequence. -/
theorem c8_str_accessors (s : Chars) :
    PvValue.to_usize (PvValue.Str s) = Except.ok none ∧
    PvValue.to_vec_usize (PvValue.Str s) = Except.ok none ∧
    PvValue.to_vec_f64 (PvValue.Str s) = Except.ok none ∧
    PvValue.to_vec_bool (PvValue.Str s) = Except.ok none ∧
    PvValue.to_vec_i64 (PvValue.Str s) = Except.ok none :=
  ⟨rfl, rfl, rfl, rfl, rfl⟩

/-- Claim C7 counterexample: at `i = i64::MIN = -2^63` the boolean conversion
calls `i.abs()`, whose negation overflows: in a debug build it panics
(modelled as `Except.error`), and in a release build it wraps back to
`i64::MIN`, yielding `false`.  Either way the conversion does not yield
`true` although the mathematical absolute value `|i| = 2^63` is positive, so
the claim as stated fails at this input. -/
theorem c7_counterexample :
    bool_from_pvatom (PvAtom.Int (-(2 ^ 63))) =
      Except.error ("attempt to negate with overflow").toList ∧
    0 < |(-(2 ^ 63) : Int)| := by
  constructor
  · decide
  · decide

/-- Claim C7 (amended): for every `Int` atom holding a signed 64-bit value
other than `i64::MIN`, and every `Float` atom, the boolean conversion yields,
without aborting, `true` exactly when the absolute value is greater than zero
(for floats in the IEEE sense captured by `f64_abs_pos`: NaN converts to
`false`, both infinities to `true`).  At `i64::MIN` itself the conversion
aborts (debug) or yields `false` (release) instead. -/
theorem c7_bool_conversion (i : Int) (f : F64)
    (hlo : -(2 ^ 63) ≤ i) (hhi : i < 2 ^ 63) (hmin : i ≠ -(2 ^ 63)) :
    (∃ b, bool_from_pvatom (PvAtom.Int i) = Except.ok b ∧ (b = true ↔ 0 < |i|)) ∧
    (∃ b, bool_from_pvatom (PvAtom.Float f) = Except.ok b ∧ (b = true ↔ f64_abs_pos f)) := by
  constructor
  · have h1 : i64_abs_checked i = some (i.natAbs : Int) := by
      unfold i64_abs_checked
      rw [if_neg hmin]
    refine ⟨decide (0 < (i.natAbs : Int)), ?_, ?_⟩
    · simp [bool_from_pvatom, h1]
    · rw [decide_eq_true_iff]
      rw [Int.abs_eq_natAbs]
  · refine ⟨(F64.abs f).gtZero, rfl, ?_⟩
    cases f <;> simp [F64.abs, F64.gtZero, f64_abs_pos]

theorem c7_witness :
    (∃ b, bool_from_pvatom (PvAtom.Int 5) = Except.ok b ∧ (b = true ↔ 0 < |(5 : Int)|)) ∧
    (∃ b, bool_from_pvatom (PvAtom.Float F64.inf) = Except.ok b ∧
      (b = true ↔ f64_abs_pos F64.inf)) :=
  c7_bool_conversion 5 F64.inf (by decide) (by decide) (by decide)

/-- Claim C2: whenever the line loop finishes with a pending continuation
(state `Dims`, the spec AwaitingKind, or `Array`, the spec AwaitingItems),
`parse_paravision_params` returns the incomplete-record error carrying that
pending record - which names its key and declared dims - and returns no
store at all, so no partial entry for the key is observable. -/
theorem c2_eof_pending_error (lines : List Chars) (p : Pending)
    (h : (List.foldl step initState lines).2 = some p) :
    parse_paravision_params lines = Except.error (PvError.Parse p) ∧
    ∀ out, parse_paravision_params lines ≠ Except.ok out := by
  have hfold : List.foldl step initState lines =
      ((List.foldl step initState lines).1, some p) := by
    rw [← h]
  unfold parse_paravision_params
  rw [hfold]
  exact ⟨rfl, fun out hc => Except.noConfusion hc⟩

theorem c2_witness :
    parse_paravision_params ["##$A=( 2 )".toList, "1".toList] =
      Except.error (PvError.Parse (Pending.Array ['A'] [2] 2 [PvAtom.Int 1])) ∧
    ∀ out, parse_paravision_params ["##$A=( 2 )".toList, "1".toList] ≠ Except.ok out :=
  c2_eof_pending_error _ _ (by decide)

/-- Claim C4: a parameter record `##$K=V` processed with no pending
continuation, whose trimmed value is not a dims list, stores
`Scalar (parse_atom V)` under the trimmed key; and `parse_atom` classifies
case-insensitively in priority order `yes`/`true`, then `no`/`false`, then
signed 64-bit integer, then float, then the trimmed text itself. -/
theorem c4_scalar_atom (out : PvParams) (l k v cs : Chars)
    (hline : line_content l = '#' :: '#' :: '$' :: cs)
    (hkv : split_key_value cs = (k, v))
    (hscal : parse_dims (trimC v) = none) :
    step (out, none) l =
      (⟨out.meta, insertKV (trimC k) (PvValue.Scalar (parse_atom (trimC v))) out.params⟩,
        none) ∧
    (∀ tok, lowerAscii (trimC tok) = ['y', 'e', 's'] ∨
        lowerAscii (trimC tok) = ['t', 'r', 'u', 'e'] →
      parse_atom tok = PvAtom.Bool true) ∧
    (∀ tok, lowerAscii (trimC tok) = ['n', 'o'] ∨
        lowerAscii (trimC tok) = ['f', 'a', 'l', 's', 'e'] →
      parse_atom tok = PvAtom.Bool false) ∧
    (∀ tok i, ¬(lowerAscii (trimC tok) = ['y', 'e', 's'] ∨
        lowerAscii (trimC tok) = ['t', 'r', 'u', 'e']) →
      ¬(lowerAscii (trimC tok) = ['n', 'o'] ∨
        lowerAscii (trimC tok) = ['f', 'a', 'l', 's', 'e']) →
      parse_i64 (trimC tok) = some i → parse_atom tok = PvAtom.Int i) ∧
    (∀ tok g, ¬(lowerAscii (trimC tok) = ['y', 'e', 's'] ∨
        lowerAscii (trimC tok) = ['t', 'r', 'u', 'e']) →
      ¬(lowerAscii (trimC tok) = ['n', 'o'] ∨
        lowerAscii (trimC tok) = ['f', 'a', 'l', 's', 'e']) →
      parse_i64 (trimC tok) = none → parse_f64 (trimC tok) = some g →
      parse_atom tok = PvAtom.Float g) ∧
    (∀ tok, ¬(lowerAscii (trimC tok) = ['y', 'e', 's'] ∨
        lowerAscii (trimC tok) = ['t', 'r', 'u', 'e']) →
      ¬(lowerAscii (trimC tok) = ['n', 'o'] ∨
        lowerAscii (trimC tok) = ['f', 'a', 'l', 's', 'e']) →
      parse_i64 (trimC tok) = none → parse_f64 (trimC tok) = none →
      parse_atom tok = PvAtom.Text (trimC tok)) := by
  refine ⟨?_, ?_, ?_, ?_, ?_, ?_⟩
  · have h1 : line_content l ≠ [] := by rw [hline]; simp
    have h2 : startsWithChars ['$', '$'] (line_content l) = false := by rw [hline]; rfl
    rw [step_content _ _ h1 h2]
    show handle_record out (line_content l) = _
    rw [hline]
    simp [handle_record, startsWithChars, hkv, hscal]
  · intro tok h
    rcases h with h | h <;> simp [parse_atom, h]
  · intro tok h
    rcases h with h | h <;> simp [parse_atom, h]
  · intro tok i hk1 hk2 hi
    simp [parse_atom, hk1, hk2, hi]
  · intro tok g hk1 hk2 hi hf
    simp [parse_atom, hk1, hk2, hi, hf]
  · intro tok hk1 hk2 hi hf
    simp [parse_atom, hk1, hk2, hi, hf]

theorem c4_witness :
    step (⟨[], []⟩, none) "##$NR=16".toList =
      (⟨[], [("NR".toList, PvValue.Scalar (PvAtom.Int 16))]⟩, none) ∧
    parse_atom "Yes".toList = PvAtom.Bool true ∧
    parse_atom "no".toList = PvAtom.Bool false ∧
    parse_atom "16".toList = PvAtom.Int 16 ∧
    parse_atom "inf".toList = PvAtom.Float F64.inf ∧
    parse_atom "abc".toList = PvAtom.Text "abc".toList := by
  have t := c4_scalar_atom ⟨[], []⟩ "##$NR=16".toList "NR".toList "16".toList
    "NR=16".toList (by decide) (by decide) (by decide)
  exact ⟨t.1, t.2.1 "Yes".toList (Or.inl (by decide)),
    t.2.2.1 "no".toList (Or.inl (by decide)),
    t.2.2.2.1 "16".toList 16 (by decide) (by decide) (by decide),
    t.2.2.2.2.1 "inf".toList F64.inf (by decide) (by decide) (by decide) (by decide),
    t.2.2.2.2.2 "abc".toList (by decide) (by decide) (by decide) (by decide)⟩

